import Mathlib

/-!
Shallow embedding of `src/deno_lib/lsp/resolver.rs` (the deno-lib LSP resolver
core): the redirect resolver with lockfile seeding and memoization
(`RedirectResolver`), the scope router (`LspResolver::get_scope_resolver`),
snapshotting and `did_cache`, and the CJS/ESM tracker front-end
(`LspCjsTracker::is_cjs`).

External collaborators that the source injects or calls out to — URL parsing
(`ModuleSpecifier::parse`), the HTTP cache behind the header provider,
`deno_core::resolve_import`, and the underlying `CjsTracker` classifier — are
modelled as explicit function parameters, mirroring how the source treats them
as injected dependencies. Everything the claims are about (the walk, the
memoization table, seeding, routing, snapshot sharing) is translated directly
from the source.
-/

/-- A parsed URL (`deno_core::url::Url` / `ModuleSpecifier`), reduced to the
observations the resolver makes of it: its scheme and the remainder of its
serialized form. Comparison is structural, matching byte-exact URL equality. -/
structure Url where
  scheme : String
  rest : String
deriving DecidableEq, Repr

/-- `matches!(specifier.scheme(), "http" | "https")` from
`RedirectResolver::resolve`. -/
def isHttpOrHttps (u : Url) : Bool :=
  u.scheme = "http" || u.scheme = "https"

/-- A response header map (`HashMap<String, String>`), as an association list
with unique keys. -/
abbrev Headers := List (String × String)

/-- `headers.get(key)` on the header map. -/
def headersGet (h : Headers) (k : String) : Option String :=
  (h.find? (fun p => decide (p.1 = k))).map Prod.snd

/-- `RedirectEntry { headers, target, destination }` from the source. -/
structure RedirectEntry where
  headers : Headers
  target : Url
  destination : Option Url
deriving DecidableEq, Repr

/-- The redirect table `DashMap<Url, Option<Arc<RedirectEntry>>>`: a map from
URL to either a redirect record (`some entry`) or the terminal marker
(`none`); a key that is absent has not been probed yet. Modelled as an
association list whose `insert` replaces the old binding, matching map
semantics. -/
abbrev EntryMap := List (Url × Option RedirectEntry)

/-- Map lookup on the redirect table. -/
def EntryMap.get : EntryMap → Url → Option (Option RedirectEntry)
  | [], _ => none
  | (k, v) :: rest, u => if k = u then some v else EntryMap.get rest u

/-- Map insertion on the redirect table (replaces any existing binding,
as `DashMap::insert` does). -/
def EntryMap.insert (m : EntryMap) (k : Url) (v : Option RedirectEntry) : EntryMap :=
  (k, v) :: m.filter (fun p => decide (p.1 ≠ k))

/-- `RedirectResolver`. The header provider `get_headers` is the injected
`GetHeadersFn` (built from the HTTP cache in `RedirectResolver::new`);
`resolve_import loc base` models the external `deno_core::resolve_import`
call used to interpret a `location` header against the original specifier. -/
structure RedirectResolver where
  get_headers : Url → Option Headers
  resolve_import : String → Url → Option Url
  entries : EntryMap

/-- The `loop` body of `RedirectResolver::resolve`, with an explicit fuel
argument for structural recursion. The loop pushes one chain element per
continuing iteration and the source breaks as soon as `chain.len() > 10`, so
any fuel of at least `12 - chain.length` reaches a `break` of the source loop
before the fuel runs out (`resolveLoopF_fuel_irrelevant` below certifies
this); `resolve` calls it with fuel 13. Returns the loop's `destination`
value, the final `chain`, and the entry table (which the loop itself updates
only in the terminal-URL break). -/
def resolveLoopF : Nat → RedirectResolver → Url → Url → List (Url × RedirectEntry) →
    Option Url × List (Url × RedirectEntry) × EntryMap
  | 0, r, _, _, chain => (none, chain, r.entries)
  | fuel + 1, r, specifier, current, chain =>
    match r.entries.get current with
    | some maybeEntry =>
      match maybeEntry with
      | some entry => (entry.destination, chain, r.entries)
      | none => (some current, chain, r.entries)
    | none =>
      match r.get_headers current with
      | none => (none, chain, r.entries)
      | some headers =>
        match headersGet headers "location" with
        | some location =>
          if chain.length > 10 then (none, chain, r.entries)
          else
            match r.resolve_import location specifier with
            | none => (none, chain, r.entries)
            | some target =>
              resolveLoopF fuel r specifier target
                (chain ++ [(current, { headers := headers, target := target, destination := none })])
        | none => (some current, chain, r.entries.insert current none)

/-- The back-fill loop after the walk: `for (specifier, mut entry) in chain {
entry.destination.clone_from(&destination); self.entries.insert(...) }`. -/
def backfill (destination : Option Url) (chain : List (Url × RedirectEntry))
    (es : EntryMap) : EntryMap :=
  chain.foldl
    (fun es p => es.insert p.1 (some { p.2 with destination := destination })) es

/-- `RedirectResolver::resolve`. Returns the resolved destination together
with the resolver carrying the updated memoization table (the source mutates
`self.entries` in place). -/
def RedirectResolver.resolve (r : RedirectResolver) (specifier : Url) :
    Option Url × RedirectResolver :=
  if isHttpOrHttps specifier = false then (some specifier, r)
  else
    let out := resolveLoopF 13 r specifier specifier []
    (out.1, { r with entries := backfill out.1 out.2.1 out.2.2 })

/-- The body of the seeding loop of `RedirectResolver::new`: parse the
source and destination of one lockfile redirect entry (skipping the entry
if either fails to parse), insert a redirect record for the source and a
terminal marker for the destination. -/
def seedStep (parse : String → Option Url) (es : EntryMap) (p : String × String) : EntryMap :=
  match parse p.1 with
  | none => es
  | some source =>
    match parse p.2 with
    | none => es
    | some destination =>
      (es.insert source
        (some { headers := [], target := destination,
                destination := some destination })).insert destination none

/-- `RedirectResolver::new`. `parse` models the external
`ModuleSpecifier::parse`, `cache_read` the header provider built from the
HTTP cache, and `ri` the external `deno_core::resolve_import`; the lockfile
argument is the `content.redirects` section as the iteration sequence of
(source, destination) string pairs. For each entry whose two URLs parse, a
redirect record for the source and a terminal marker for the destination are
inserted; entries that fail to parse are skipped (`continue`). -/
def RedirectResolver.new (parse : String → Option Url)
    (cache_read : Url → Option Headers)
    (ri : String → Url → Option Url)
    (lockfile : Option (List (String × String))) : RedirectResolver :=
  let entries :=
    match lockfile with
    | none => []
    | some redirects => redirects.foldl (seedStep parse) []
  { get_headers := cache_read, resolve_import := ri, entries := entries }

/-- `RedirectResolver::did_cache`: `self.entries.retain(|_, entry|
entry.is_some())`. -/
def RedirectResolver.did_cache (r : RedirectResolver) : RedirectResolver :=
  { r with entries := r.entries.filter (fun p => p.2.isSome) }

/-- Configuration data attached to a scope (`Arc<ConfigData>`): its root URL
and the externally supplied membership predicate
(`ConfigData::scope_contains_specifier`, defined in `lsp::config`). -/
structure ConfigData where
  scope : Url
  scope_contains_specifier : Url → Bool

/-- The shared-ownership store of `RedirectResolver` values. In the source
the scope resolvers hold `Option<Arc<RedirectResolver>>`; an `Arc` is
modelled as an index into this store, so that cloning a handle (as
`snapshot` does) shares the underlying interior-mutable table. -/
structure RedirectStore where
  cells : List RedirectResolver

/-- Dereference a handle. Arc handles are always valid in the source; the
default empty resolver is dead code for well-formed worlds. -/
def RedirectStore.read (st : RedirectStore) (h : Nat) : RedirectResolver :=
  st.cells.getD h { get_headers := fun _ => none, resolve_import := fun _ _ => none, entries := [] }

/-- Write back through a handle (models in-place mutation of the shared
`DashMap` behind the `Arc`). -/
def RedirectStore.write (st : RedirectStore) (h : Nat) (v : RedirectResolver) : RedirectStore :=
  { cells := st.cells.set h v }

/-- `LspScopeResolver`, restricted to the fields the claims observe: the
redirect-resolver handle and the config data. The npm / node / cjs / graph
sub-resolvers are rebuilt or forked on snapshot and are external to the
redirect-table claims. -/
structure LspScopeResolver where
  redirect_resolver : Option Nat
  config_data : Option ConfigData

/-- `impl Default for LspScopeResolver`: no redirect resolver, no config. -/
def LspScopeResolver.default : LspScopeResolver :=
  { redirect_resolver := none, config_data := none }

/-- `LspScopeResolver::snapshot`: the redirect resolver (and jsr resolver)
are `Arc::clone`d — the handle is shared, not copied — and `config_data` is
cloned; the npm-family resolvers are forked or rebuilt (external). -/
def LspScopeResolver.snapshot (s : LspScopeResolver) : LspScopeResolver :=
  { redirect_resolver := s.redirect_resolver, config_data := s.config_data }

/-- `LspResolver`: the unscoped default resolver plus
`by_scope: BTreeMap<ModuleSpecifier, Arc<LspScopeResolver>>`. The BTreeMap is
modelled as an association list kept sorted by the serialized key. -/
structure LspResolver where
  unscoped : LspScopeResolver
  by_scope : List (Url × LspScopeResolver)

/-- The serialized form of a URL as its character sequence — the `Ord` key
of the `BTreeMap` (URLs are ordered byte-lexicographically on their
serialization). -/
def urlKey (u : Url) : List Char :=
  (u.scheme ++ "://" ++ u.rest).data

/-- Lexicographic strict comparison of serialized keys. -/
def charsLtb : List Char → List Char → Bool
  | [], [] => false
  | [], _ :: _ => true
  | _ :: _, [] => false
  | a :: as, b :: bs =>
    if a.toNat < b.toNat then true
    else if b.toNat < a.toNat then false
    else charsLtb as bs

/-- `BTreeMap::insert`: ordered insertion by serialized key, replacing an
equal key. -/
def btreeInsert : List (Url × LspScopeResolver) → Url → LspScopeResolver →
    List (Url × LspScopeResolver)
  | [], k, v => [(k, v)]
  | (k', v') :: rest, k, v =>
    if urlKey k = urlKey k' then (k, v) :: rest
    else if charsLtb (urlKey k) (urlKey k') then (k, v) :: (k', v') :: rest
    else (k', v') :: btreeInsert rest k v

/-- `LspResolver::from_config`: inserts one scope resolver per configured
scope into the `by_scope` BTreeMap, in the order the configuration yields
them, plus the unscoped resolver. The construction of each scope resolver
(`LspScopeResolver::from_config_data`) probes caches and the filesystem and
is external; the model receives the constructed scope resolvers. -/
def LspResolver.from_config (scopes : List (Url × LspScopeResolver))
    (unscoped : LspScopeResolver) : LspResolver :=
  { unscoped := unscoped,
    by_scope := scopes.foldl (fun m p => btreeInsert m p.1 p.2) [] }

/-- The `rfind` predicate of `get_scope_resolver`:
`r.config_data.as_ref().map(|d| d.scope_contains_specifier(file_referrer)).unwrap_or(false)`. -/
def scopeMatches (fileReferrer : Url) (s : LspScopeResolver) : Bool :=
  match s.config_data with
  | some d => d.scope_contains_specifier fileReferrer
  | none => false

/-- `LspResolver::get_scope_resolver`: with no referrer the unscoped default;
otherwise `self.by_scope.values().rfind(...)` — the last value of the
key-ordered map whose scope contains the referrer — falling back to the
unscoped default. -/
def LspResolver.get_scope_resolver (r : LspResolver) (fileReferrer : Option Url) :
    LspScopeResolver :=
  match fileReferrer with
  | none => r.unscoped
  | some ref =>
    (((r.by_scope.map Prod.snd).reverse.find? (scopeMatches ref)).getD r.unscoped)

/-- `impl Default for LspResolver` (derived): default unscoped resolver,
empty scope map. -/
def LspResolver.default : LspResolver :=
  { unscoped := LspScopeResolver.default, by_scope := [] }

/-- `LspResolver::snapshot`: snapshot the unscoped resolver and every scope
resolver; the scope keys are cloned values. -/
def LspResolver.snapshot (r : LspResolver) : LspResolver :=
  { unscoped := r.unscoped.snapshot,
    by_scope := r.by_scope.map (fun p => (p.1, p.2.snapshot)) }

/-- `LspResolver::resolve_redirects`: route to the scope resolver; with no
redirect resolver configured return the input specifier unchanged, otherwise
delegate to `RedirectResolver::resolve` (which may memoize, i.e. mutate the
shared table behind the handle). -/
def LspResolver.resolve_redirects (st : RedirectStore) (r : LspResolver)
    (specifier : Url) (fileReferrer : Option Url) : Option Url × RedirectStore :=
  let scope := r.get_scope_resolver fileReferrer
  match scope.redirect_resolver with
  | none => (some specifier, st)
  | some h =>
    let out := (st.read h).resolve specifier
    (out.1, st.write h out.2)

/-- `LspResolver::did_cache`: for the unscoped resolver and every scope
resolver, call `did_cache` on its redirect resolver (the jsr resolver's
`did_cache` is external). This mutates the shared tables in place. -/
def LspResolver.did_cache (st : RedirectStore) (r : LspResolver) : RedirectStore :=
  (r.unscoped :: r.by_scope.map Prod.snd).foldl
    (fun st s =>
      match s.redirect_resolver with
      | none => st
      | some h => st.write h ((st.read h).did_cache))
    st

/-- `deno_ast::MediaType`, opaque to the claims. -/
structure MediaType where
  tag : String
deriving DecidableEq, Repr

/-- `deno_ast::ModuleKind` (external): the two module kinds. -/
inductive ModuleKind where
  | esm : ModuleKind
  | cjs : ModuleKind
deriving DecidableEq, Repr

/-- `ModuleKind::is_cjs` (external `deno_ast` helper). -/
def ModuleKind.is_cjs : ModuleKind → Bool
  | .esm => false
  | .cjs => true

/-- The underlying classifier `crate::resolver::CjsTracker` (not under
`src/`), modelled abstractly through the three methods `LspCjsTracker::is_cjs`
calls; fallible results (`Result<bool, _>`) are modelled as `Option Bool`
(`.ok()` / `unwrap_or`). -/
structure CjsTracker where
  get_known_kind : Url → MediaType → Option ModuleKind
  is_cjs_with_known_is_script : Url → MediaType → Bool → Option Bool
  is_maybe_cjs : Url → MediaType → Option Bool

/-- `deno_ast::ParsedSource`, reduced to the single observation made of it:
the result of `compute_is_script()`. -/
structure ParsedSource where
  compute_is_script : Bool

/-- `LspCjsTracker`. -/
structure LspCjsTracker where
  cjs_tracker : CjsTracker

/-- `LspCjsTracker::is_cjs`: prior knowledge first; else the hint-based
classifier on the parsed source's `is_script`; on a missing source or a
failed hint-based classification, the `is_maybe_cjs` predicate, defaulting
to `false` when that also fails. -/
def LspCjsTracker.is_cjs (t : LspCjsTracker) (specifier : Url) (media_type : MediaType)
    (maybe_parsed_source : Option ParsedSource) : Bool :=
  match t.cjs_tracker.get_known_kind specifier media_type with
  | some module_kind => module_kind.is_cjs
  | none =>
    let maybe_is_script := maybe_parsed_source.map (fun p => p.compute_is_script)
    match maybe_is_script.bind
        (fun is_script => t.cjs_tracker.is_cjs_with_known_is_script specifier media_type is_script) with
    | some b => b
    | none => (t.cjs_tracker.is_maybe_cjs specifier media_type).getD false

/-- One step of the redirect graph induced by a header provider: the URL a
`location` header of `v` resolves to (against the original specifier
`base`, exactly as the walk in `resolve` interprets it). -/
def walkStep (r : RedirectResolver) (base v : Url) : Option Url :=
  match r.get_headers v with
  | none => none
  | some h =>
    match headersGet h "location" with
    | none => none
    | some location => r.resolve_import location base

/-- Iterated redirect steps: `walkIter r base n v` is the URL reached from
`v` after `n` redirect hops, or `none` if some hop among the first `n` is
not a redirect. -/
def walkIter (r : RedirectResolver) (base : Url) : Nat → Url → Option Url
  | 0, v => some v
  | n + 1, v =>
    match walkStep r base v with
    | none => none
    | some w => walkIter r base n w

/-- The header provider reports a `location` redirect at `v`. -/
def hasLocationProbe (r : RedirectResolver) (v : Url) : Prop :=
  ∃ h l, r.get_headers v = some h ∧ headersGet h "location" = some l

/-- Well-formedness of a redirect table: the destination recorded by any
redirect record is either a non-HTTP(S) URL or is itself memoized as
terminal. Fresh tables, and tables seeded from lockfiles in which no
destination is re-seeded by another entry, satisfy it. -/
def EntriesInv (m : EntryMap) : Prop :=
  ∀ v e d, m.get v = some (some e) → e.destination = some d →
    isHttpOrHttps d = false ∨ m.get d = some none

/-- The strict key order of the `by_scope` BTreeMap. -/
def scopeKeyLt (x y : Url × LspScopeResolver) : Prop :=
  charsLtb (urlKey x.1) (urlKey y.1) = true

/-- A concrete https URL. -/
def hUrl (s : String) : Url :=
  { scheme := "https", rest := s }

/-- The i-th URL of a straight redirect chain. -/
def chainUrl (i : Nat) : Url :=
  { scheme := "https", rest := Nat.repr i }

/-- Header table for an eleven-hop chain: `chainUrl i` redirects to
`chainUrl (i+1)` for `i < 11`, and `chainUrl 11` is terminal (headers
without `location`). -/
def elevenHopTable : List (Url × Headers) :=
  (List.range 11).map (fun i => (chainUrl i, [("location", Nat.repr (i + 1))]))
    ++ [(chainUrl 11, [])]

/-- A resolver over the eleven-hop chain, with `resolve_import` reading the
location string as an https URL. -/
def elevenHopResolver : RedirectResolver :=
  { get_headers := fun v => (elevenHopTable.find? (fun p => decide (p.1 = v))).map Prod.snd,
    resolve_import := fun loc _ => some { scheme := "https", rest := loc },
    entries := [] }

/-- Header table for a twelve-hop chain (every `chainUrl i`, `i < 12`,
redirects onward). -/
def twelveHopTable : List (Url × Headers) :=
  (List.range 12).map (fun i => (chainUrl i, [("location", Nat.repr (i + 1))]))

/-- A resolver whose provider produces twelve consecutive redirect hops. -/
def twelveHopResolver : RedirectResolver :=
  { get_headers := fun v => (twelveHopTable.find? (fun p => decide (p.1 = v))).map Prod.snd,
    resolve_import := fun loc _ => some { scheme := "https", rest := loc },
    entries := [] }

/-- A two-URL redirect cycle `a → b → a`. -/
def cycResolver : RedirectResolver :=
  { get_headers := fun v =>
      if v = hUrl "a" then some [("location", "b")]
      else if v = hUrl "b" then some [("location", "a")]
      else none,
    resolve_import := fun loc _ => some { scheme := "https", rest := loc },
    entries := [] }

/-- A one-hop chain that then hits a URL the provider cannot serve. -/
def partialResolver : RedirectResolver :=
  { get_headers := fun v => if v = hUrl "pa" then some [("location", "pb")] else none,
    resolve_import := fun loc _ => some { scheme := "https", rest := loc },
    entries := [] }

/-- A URL memoized as terminal in the shared redirect table below. -/
def sharedTerminal : Url := hUrl "t"

/-- The shared redirect resolver the live resolver and its snapshot both
point at (handle 0). -/
def sharedRedirectResolver : RedirectResolver :=
  { get_headers := fun _ => none, resolve_import := fun _ _ => none,
    entries := [(sharedTerminal, none)] }

/-- The store holding the one shared redirect table. -/
def liveStore : RedirectStore := { cells := [sharedRedirectResolver] }

/-- A live resolver whose unscoped scope holds handle 0. -/
def liveResolver : LspResolver :=
  { unscoped := { redirect_resolver := some 0, config_data := none }, by_scope := [] }

/-- Scope root with the smaller BTreeMap key. -/
def scopeUrlA : Url := { scheme := "file", rest := "a/" }

/-- Scope root with the greater BTreeMap key. -/
def scopeUrlB : Url := { scheme := "file", rest := "b/" }

/-- A scope resolver whose membership predicate contains every referrer. -/
def scopeResolverFor (u : Url) : LspScopeResolver :=
  { redirect_resolver := none,
    config_data := some { scope := u, scope_contains_specifier := fun _ => true } }

/-- A router built by inserting the greater-key scope first and the
smaller-key scope last. -/
def routerLastInsertedSmallKey : LspResolver :=
  LspResolver.from_config
    [(scopeUrlB, scopeResolverFor scopeUrlB), (scopeUrlA, scopeResolverFor scopeUrlA)]
    LspScopeResolver.default

/-- A table holding one proven-terminal marker and one redirect record. -/
def terminalEntryTable : RedirectResolver :=
  { get_headers := fun _ => none, resolve_import := fun _ _ => none,
    entries := [(hUrl "term", none),
      (hUrl "red", some { headers := [], target := hUrl "term",
                          destination := some (hUrl "term") })] }

/-- Concrete lockfile URLs. -/
def lockUrlA : Url := hUrl "x/a"

/-- Concrete lockfile URLs. -/
def lockUrlB : Url := hUrl "x/b"

/-- Concrete lockfile URLs. -/
def lockUrlC : Url := hUrl "x/c"

/-- A concrete `ModuleSpecifier::parse` model for the lockfile strings. -/
def lockParse : String → Option Url := fun s =>
  if s = "A" then some lockUrlA
  else if s = "B" then some lockUrlB
  else if s = "C" then some lockUrlC
  else none

/-- A resolver seeded from the chained lockfile `a → b, b → c`. -/
def chainedLockfileResolver : RedirectResolver :=
  RedirectResolver.new lockParse (fun _ => none) (fun _ _ => none)
    (some [("A", "B"), ("B", "C")])

/-- A resolver seeded from the single-entry lockfile `a → b`. -/
def singleLockfileResolver : RedirectResolver :=
  RedirectResolver.new lockParse (fun _ => none) (fun _ _ => none)
    (some [("A", "B")])

/-- A resolver seeded from the lockfile `b → c, a → b` in which the later
entry's destination marker overwrites the earlier entry's redirect record
for `b`. -/
def overwrittenLockfileResolver : RedirectResolver :=
  RedirectResolver.new lockParse (fun _ => none) (fun _ _ => none)
    (some [("B", "C"), ("A", "B")])

/-- A concrete media type for the tracker instances. -/
def tsMediaType : MediaType := { tag := "TypeScript" }

/-- A concrete specifier for the tracker instances. -/
def trackedUrl : Url := { scheme := "file", rest := "p/m.ts" }

/-- A tracker with no prior knowledge whose hint-based classification fails
and whose maybe-cjs predicate answers true. -/
def failingHintTracker : LspCjsTracker :=
  { cjs_tracker :=
    { get_known_kind := fun _ _ => none,
      is_cjs_with_known_is_script := fun _ _ _ => none,
      is_maybe_cjs := fun _ _ => some true } }

/-! ## Theorems -/

theorem EntryMap.get_insert_self (m : EntryMap) (k : Url) (v : Option RedirectEntry) :
    (m.insert k v).get k = some v := by
  simp [EntryMap.insert, EntryMap.get]

theorem EntryMap.get_filter_erase (m : EntryMap) (k u : Url) (h : k ≠ u) :
    EntryMap.get (m.filter (fun p => decide (p.1 ≠ k))) u = m.get u := by
  induction m with
  | nil => rfl
  | cons p rest ih =>
    obtain ⟨pk, pv⟩ := p
    by_cases hp : pk = k
    · have hne : pk ≠ u := by rw [hp]; exact h
      have hf : List.filter (fun p => decide (p.1 ≠ k)) ((pk, pv) :: rest)
          = List.filter (fun p => decide (p.1 ≠ k)) rest := by
        simp [List.filter_cons, hp]
      rw [hf, ih]
      simp [EntryMap.get, hne]
    · have hf : List.filter (fun p => decide (p.1 ≠ k)) ((pk, pv) :: rest)
          = (pk, pv) :: List.filter (fun p => decide (p.1 ≠ k)) rest := by
        simp [List.filter_cons, hp]
      rw [hf]
      by_cases hu : pk = u
      · simp [EntryMap.get, hu]
      · simp only [EntryMap.get, if_neg hu]
        exact ih

theorem EntryMap.get_insert_ne (m : EntryMap) (k u : Url) (v : Option RedirectEntry)
    (h : k ≠ u) : (m.insert k v).get u = m.get u := by
  simp only [EntryMap.insert, EntryMap.get, if_neg h]
  exact EntryMap.get_filter_erase m k u h

theorem EntryMap.get_eq_none_of_not_mem (m : EntryMap) (u : Url)
    (h : u ∉ m.map Prod.fst) : m.get u = none := by
  induction m with
  | nil => rfl
  | cons p rest ih =>
    simp only [List.map_cons, List.mem_cons] at h
    push_neg at h
    have : p.1 ≠ u := fun hh => h.1 hh.symm
    simp [EntryMap.get, this, ih h.2]

theorem backfill_get_not_mem (d : Option Url) (chain : List (Url × RedirectEntry)) :
    ∀ es v, v ∉ chain.map Prod.fst → (backfill d chain es).get v = es.get v := by
  induction chain with
  | nil => intro es v _; rfl
  | cons p rest ih =>
    intro es v hv
    simp only [List.map_cons, List.mem_cons] at hv
    push_neg at hv
    have step : backfill d (p :: rest) es
        = backfill d rest (es.insert p.1 (some { p.2 with destination := d })) := rfl
    rw [step, ih _ _ hv.2,
      EntryMap.get_insert_ne _ _ _ _ (fun hh => hv.1 hh.symm)]

theorem backfill_get_mem (d : Option Url) (chain : List (Url × RedirectEntry)) :
    ∀ es v, v ∈ chain.map Prod.fst →
      ∃ e, (backfill d chain es).get v = some (some e) ∧ e.destination = d := by
  induction chain with
  | nil => intro es v hv; simp at hv
  | cons p rest ih =>
    intro es v hv
    by_cases hm : v ∈ rest.map Prod.fst
    · exact ih _ v hm
    · have hv1 : v = p.1 := by
        simp only [List.map_cons, List.mem_cons] at hv
        exact hv.resolve_right hm
      refine ⟨{ p.2 with destination := d }, ?_, rfl⟩
      have step : backfill d (p :: rest) es
          = backfill d rest (es.insert p.1 (some { p.2 with destination := d })) := rfl
      rw [step, backfill_get_not_mem d rest _ v hm, hv1, EntryMap.get_insert_self]

theorem walkIter_add (r : RedirectResolver) (base : Url) :
    ∀ m n v, walkIter r base (m + n) v =
      match walkIter r base m v with
      | none => none
      | some w => walkIter r base n w := by
  intro m
  induction m with
  | zero =>
    intro n v
    simp [walkIter]
  | succ m ih =>
    intro n v
    have harith : m + 1 + n = (m + n) + 1 := by omega
    rw [harith]
    show (match walkStep r base v with
          | none => none
          | some w => walkIter r base (m + n) w) = _
    cases hs : walkStep r base v with
    | none => simp [walkIter, hs]
    | some w =>
      have hv : walkIter r base (m + 1) v = walkIter r base m w := by
        simp [walkIter, hs]
      show walkIter r base (m + n) w = _
      rw [ih n w, hv]

theorem walkIter_defined_mono (r : RedirectResolver) (base : Url) (m k : Nat) (v : Url)
    (h : walkIter r base (m + k) v ≠ none) : walkIter r base m v ≠ none := by
  intro hm
  apply h
  rw [walkIter_add r base m k v, hm]

theorem cycle_walk_total (r : RedirectResolver) (base u : Url) (i j : Nat)
    (hij : i < j) (hd : walkIter r base j u ≠ none)
    (he : walkIter r base i u = walkIter r base j u) :
    ∀ n, walkIter r base n u ≠ none := by
  intro n
  induction n using Nat.strong_induction_on with
  | _ n ih =>
    by_cases hn : n ≤ j
    · have : j = n + (j - n) := by omega
      rw [this] at hd
      exact walkIter_defined_mono r base n (j - n) u hd
    · have hk : n = j + (n - j) := by omega
      rw [hk, walkIter_add r base j (n - j) u, ← he,
        ← walkIter_add r base i (n - j) u]
      have hlt : i + (n - j) < n := by omega
      exact ih (i + (n - j)) hlt

theorem walkStep_of_iter_succ (r : RedirectResolver) (base : Url) (n : Nat) (v : Url)
    (h : walkIter r base (n + 1) v ≠ none) :
    ∃ w, walkStep r base v = some w ∧ walkIter r base n w = walkIter r base (n + 1) v := by
  cases hs : walkStep r base v with
  | none =>
    exfalso
    apply h
    simp [walkIter, hs]
  | some w =>
    refine ⟨w, rfl, ?_⟩
    simp [walkIter, hs]

theorem resolveLoopF_hop_bound (r : RedirectResolver) (u : Url) (hE : r.entries = []) :
    ∀ fuel current chain, chain.length ≤ 11 → 13 ≤ chain.length + fuel →
      walkIter r u (12 - chain.length) current ≠ none →
      (resolveLoopF fuel r u current chain).1 = none := by
  intro fuel
  induction fuel with
  | zero =>
    intro current chain hlen hfuel _
    omega
  | succ fuel ih =>
    intro current chain hlen hfuel hwalk
    have hget : r.entries.get current = none := by rw [hE]; rfl
    have h12 : 12 - chain.length = (11 - chain.length) + 1 := by omega
    rw [h12] at hwalk
    obtain ⟨w, hs, hrest⟩ := walkStep_of_iter_succ r u (11 - chain.length) current hwalk
    obtain ⟨h, hh, loc, hl, hri⟩ :
        ∃ h, r.get_headers current = some h ∧
          ∃ loc, headersGet h "location" = some loc ∧ r.resolve_import loc u = some w := by
      cases hgh : r.get_headers current with
      | none => simp [walkStep, hgh] at hs
      | some h =>
        cases hloc : headersGet h "location" with
        | none => simp [walkStep, hgh, hloc] at hs
        | some loc =>
          simp only [walkStep, hgh, hloc] at hs
          exact ⟨h, rfl, loc, hloc, hs⟩
    show (resolveLoopF (fuel + 1) r u current chain).1 = none
    rw [resolveLoopF]
    simp only [hget, hh, hl]
    by_cases hb : chain.length > 10
    · simp [hb]
    · simp only [if_neg hb, hri]
      apply ih
      · simp
        omega
      · simp
        omega
      · simp only [List.length_append, List.length_cons, List.length_nil, Nat.zero_add]
        rw [show 12 - (chain.length + 1) = 11 - chain.length from by omega, hrest]
        exact hwalk

theorem resolveLoopF_some_dest (r : RedirectResolver) (s : Url) (hInv : EntriesInv r.entries) :
    ∀ fuel current chain d,
      (∀ p ∈ chain, r.entries.get p.1 = none ∧ hasLocationProbe r p.1) →
      (resolveLoopF fuel r s current chain).1 = some d →
      (∀ p ∈ (resolveLoopF fuel r s current chain).2.1,
        r.entries.get p.1 = none ∧ hasLocationProbe r p.1) ∧
      (isHttpOrHttps d = false
        ∨ (r.entries.get d = some none ∧ (resolveLoopF fuel r s current chain).2.2 = r.entries)
        ∨ ((resolveLoopF fuel r s current chain).2.2 = r.entries.insert d none
            ∧ ¬ hasLocationProbe r d)) := by
  intro fuel
  induction fuel with
  | zero =>
    intro current chain d _ hd
    simp [resolveLoopF] at hd
  | succ fuel ih =>
    intro current chain d hchain hd
    cases hget : r.entries.get current with
    | some maybeEntry =>
      cases maybeEntry with
      | some entry =>
        have hout : resolveLoopF (fuel + 1) r s current chain
            = (entry.destination, chain, r.entries) := by
          rw [resolveLoopF]; simp [hget]
        rw [hout] at hd ⊢
        rcases hInv current entry d hget hd with hf | ht
        · exact ⟨hchain, Or.inl hf⟩
        · exact ⟨hchain, Or.inr (Or.inl ⟨ht, rfl⟩)⟩
      | none =>
        have hout : resolveLoopF (fuel + 1) r s current chain
            = (some current, chain, r.entries) := by
          rw [resolveLoopF]; simp [hget]
        rw [hout] at hd ⊢
        have hcd : current = d := by simpa using hd
        subst hcd
        exact ⟨hchain, Or.inr (Or.inl ⟨hget, rfl⟩)⟩
    | none =>
      cases hgh : r.get_headers current with
      | none =>
        have hout : resolveLoopF (fuel + 1) r s current chain
            = (none, chain, r.entries) := by
          rw [resolveLoopF]; simp [hget, hgh]
        rw [hout] at hd
        simp at hd
      | some headers =>
        cases hloc : headersGet headers "location" with
        | some location =>
          by_cases hb : chain.length > 10
          · have hout : resolveLoopF (fuel + 1) r s current chain
                = (none, chain, r.entries) := by
              rw [resolveLoopF]; simp [hget, hgh, hloc, hb]
            rw [hout] at hd
            simp at hd
          · cases hri : r.resolve_import location s with
            | none =>
              have hout : resolveLoopF (fuel + 1) r s current chain
                  = (none, chain, r.entries) := by
                rw [resolveLoopF]; simp [hget, hgh, hloc, if_neg hb, hri]
              rw [hout] at hd
              simp at hd
            | some target =>
              have hout : resolveLoopF (fuel + 1) r s current chain
                  = resolveLoopF fuel r s target
                      (chain ++ [(current, { headers := headers, target := target,
                                             destination := none })]) := by
                rw [resolveLoopF]; simp [hget, hgh, hloc, if_neg hb, hri]
              rw [hout] at hd ⊢
              apply ih
              · intro p hp
                rcases List.mem_append.mp hp with hmem | hmem
                · exact hchain p hmem
                · have hp1 : p = (current, (⟨headers, target, none⟩ : RedirectEntry)) := by
                    simpa using hmem
                  rw [hp1]
                  exact ⟨hget, ⟨headers, location, hgh, hloc⟩⟩
              · exact hd
        | none =>
          have hout : resolveLoopF (fuel + 1) r s current chain
              = (some current, chain, r.entries.insert current none) := by
            rw [resolveLoopF]; simp [hget, hgh, hloc]
          rw [hout] at hd ⊢
          have hcd : current = d := by simpa using hd
          subst hcd
          refine ⟨hchain, Or.inr (Or.inr ⟨rfl, ?_⟩)⟩
          rintro ⟨h', l', hh', hl'⟩
          rw [hgh] at hh'
          have hh2 : headers = h' := by injection hh'
          rw [← hh2] at hl'
          rw [hloc] at hl'
          exact Option.noConfusion hl'

theorem resolve_of_marker (r : RedirectResolver) (u : Url)
    (h : r.entries.get u = some none) : r.resolve u = (some u, r) := by
  by_cases hu : isHttpOrHttps u = false
  · simp [RedirectResolver.resolve, hu]
  · have hloop : resolveLoopF 13 r u u [] = (some u, [], r.entries) := by
      rw [resolveLoopF]; simp [h]
    simp only [RedirectResolver.resolve, if_neg hu]
    rw [hloop]
    simp [backfill]

theorem resolve_of_record (r : RedirectResolver) (u : Url) (e : RedirectEntry)
    (hu : isHttpOrHttps u = true) (h : r.entries.get u = some (some e)) :
    r.resolve u = (e.destination, r) := by
  have hnu : ¬ (isHttpOrHttps u = false) := by simp [hu]
  have hloop : resolveLoopF 13 r u u [] = (e.destination, [], r.entries) := by
    rw [resolveLoopF]; simp [h]
  simp only [RedirectResolver.resolve, if_neg hnu]
  rw [hloop]
  simp [backfill]

theorem resolve_some_dest_state (r : RedirectResolver) (u d : Url) (r2 : RedirectResolver)
    (hInv : EntriesInv r.entries) (h : r.resolve u = (some d, r2)) :
    isHttpOrHttps d = false ∨ r2.entries.get d = some none := by
  by_cases hu : isHttpOrHttps u = false
  · have hres : r.resolve u = (some u, r) := by simp [RedirectResolver.resolve, hu]
    rw [hres] at h
    have hd : u = d := by
      have : some u = some d := congrArg Prod.fst h
      injection this
    left
    rw [← hd]
    exact hu
  · have hd1 : (r.resolve u).1 = some d := by rw [h]
    have hsnd : (r.resolve u).2 = r2 := congrArg Prod.snd h
    have hfst : (r.resolve u).1 = some d := congrArg Prod.fst h
    have hr2 : r2 = { r with
        entries := backfill (resolveLoopF 13 r u u []).1 (resolveLoopF 13 r u u []).2.1
          (resolveLoopF 13 r u u []).2.2 } := by
      rw [← hsnd]
      simp only [RedirectResolver.resolve, if_neg hu]
    have hdest : (resolveLoopF 13 r u u []).1 = some d := by
      rw [← hfst]
      simp only [RedirectResolver.resolve, if_neg hu]
    obtain ⟨hchain, hdisj⟩ :=
      resolveLoopF_some_dest r u hInv 13 u [] d (by simp) hdest
    rcases hdisj with hf | ⟨hgd, hes⟩ | ⟨hes, hnp⟩
    · exact Or.inl hf
    · right
      have hnm : d ∉ (resolveLoopF 13 r u u []).2.1.map Prod.fst := by
        intro hmem
        obtain ⟨p, hp, hp1⟩ := List.mem_map.mp hmem
        have := (hchain p hp).1
        rw [hp1] at this
        rw [this] at hgd
        exact Option.noConfusion hgd
      rw [hr2]
      show (backfill (resolveLoopF 13 r u u []).1 (resolveLoopF 13 r u u []).2.1
          (resolveLoopF 13 r u u []).2.2).get d = some none
      rw [backfill_get_not_mem _ _ _ _ hnm, hes, hgd]
    · right
      have hnm : d ∉ (resolveLoopF 13 r u u []).2.1.map Prod.fst := by
        intro hmem
        obtain ⟨p, hp, hp1⟩ := List.mem_map.mp hmem
        have := (hchain p hp).2
        rw [hp1] at this
        exact hnp this
      rw [hr2]
      show (backfill (resolveLoopF 13 r u u []).1 (resolveLoopF 13 r u u []).2.1
          (resolveLoopF 13 r u u []).2.2).get d = some none
      rw [backfill_get_not_mem _ _ _ _ hnm, hes, EntryMap.get_insert_self]

/-- C6, amended: idempotence of redirect resolution holds on tables
satisfying `EntriesInv` (fresh tables, and lockfile-seeded tables without
chained entries): whenever `resolve u` returns a URL `d`, resolving `d` in
the resulting state returns `d` and leaves the state unchanged — so
`resolve (resolve u) = resolve u`. The chained-lockfile counterexample shows
the unconditional claim fails. -/
theorem resolve_idempotent (r : RedirectResolver) (u d : Url) (r2 : RedirectResolver)
    (hInv : EntriesInv r.entries) (h : r.resolve u = (some d, r2)) :
    r2.resolve d = (some d, r2) := by
  rcases resolve_some_dest_state r u d r2 hInv h with hf | hm
  · simp [RedirectResolver.resolve, hf]
  · exact resolve_of_marker r2 d hm

theorem seedFold_get_preserved (parse : String → Option Url) (a : Url) :
    ∀ post : List (String × String),
      (∀ p ∈ post, parse p.1 ≠ some a) → (∀ p ∈ post, parse p.2 ≠ some a) →
      ∀ es : EntryMap, EntryMap.get (post.foldl (seedStep parse) es) a = es.get a := by
  intro post
  induction post with
  | nil => intro _ _ es; rfl
  | cons q rest ih =>
    intro H1 H2 es
    have hstep : (q :: rest).foldl (seedStep parse) es
        = rest.foldl (seedStep parse) (seedStep parse es q) := rfl
    have hone : EntryMap.get (seedStep parse es q) a = es.get a := by
      cases hq1 : parse q.1 with
      | none => simp [seedStep, hq1]
      | some src =>
        cases hq2 : parse q.2 with
        | none => simp [seedStep, hq1, hq2]
        | some dst =>
          have hsa : src ≠ a := by
            intro hh
            exact H1 q (by simp) (by rw [hq1, hh])
          have hda : dst ≠ a := by
            intro hh
            exact H2 q (by simp) (by rw [hq2, hh])
          simp only [seedStep, hq1, hq2]
          rw [EntryMap.get_insert_ne _ _ _ _ hda, EntryMap.get_insert_ne _ _ _ _ hsa]
    rw [hstep,
      ih (fun p hp => H1 p (by simp [hp])) (fun p hp => H2 p (by simp [hp])) _, hone]

theorem seedFold_get_marker (parse : String → Option Url) (b : Url) :
    ∀ post : List (String × String),
      (∀ p ∈ post, parse p.1 ≠ some b) →
      ∀ es : EntryMap, es.get b = some none →
        EntryMap.get (post.foldl (seedStep parse) es) b = some none := by
  intro post
  induction post with
  | nil => intro _ es hes; exact hes
  | cons q rest ih =>
    intro H3 es hes
    have hstep : (q :: rest).foldl (seedStep parse) es
        = rest.foldl (seedStep parse) (seedStep parse es q) := rfl
    have hone : EntryMap.get (seedStep parse es q) b = some none := by
      cases hq1 : parse q.1 with
      | none => simpa [seedStep, hq1] using hes
      | some src =>
        cases hq2 : parse q.2 with
        | none => simpa [seedStep, hq1, hq2] using hes
        | some dst =>
          have hsb : src ≠ b := by
            intro hh
            exact H3 q (by simp) (by rw [hq1, hh])
          simp only [seedStep, hq1, hq2]
          by_cases hdb : dst = b
          · rw [hdb, EntryMap.get_insert_self]
          · rw [EntryMap.get_insert_ne _ _ _ _ hdb, EntryMap.get_insert_ne _ _ _ _ hsb]
            exact hes
    rw [hstep]
    exact ih (fun p hp => H3 p (by simp [hp])) _ hone

theorem rfind_eq_getLast_filter {α : Type} (l : List α) (p : α → Bool) :
    l.reverse.find? p = (l.filter p).getLast? := by
  rw [← List.filter_head? p l.reverse, List.filter_reverse, List.head?_reverse]

theorem charsLtb_trans :
    ∀ a b c : List Char, charsLtb a b = true → charsLtb b c = true →
      charsLtb a c = true := by
  intro a
  induction a with
  | nil =>
    intro b c hab hbc
    cases b with
    | nil => exact absurd hab (by simp [charsLtb])
    | cons y ys =>
      cases c with
      | nil => exact absurd hbc (by simp [charsLtb])
      | cons z zs => simp [charsLtb]
  | cons x xs ih =>
    intro b c hab hbc
    cases b with
    | nil => exact absurd hab (by simp [charsLtb])
    | cons y ys =>
      cases c with
      | nil => exact absurd hbc (by simp [charsLtb])
      | cons z zs =>
        simp only [charsLtb] at hab hbc ⊢
        by_cases hxy : x.toNat < y.toNat
        · by_cases hyz : y.toNat < z.toNat
          · rw [if_pos (by omega)]
          · rw [if_neg hyz] at hbc
            by_cases hzy : z.toNat < y.toNat
            · rw [if_pos hzy] at hbc
              exact absurd hbc (by simp)
            · rw [if_pos (by omega)]
        · rw [if_neg hxy] at hab
          by_cases hyx : y.toNat < x.toNat
          · rw [if_pos hyx] at hab
            exact absurd hab (by simp)
          · rw [if_neg hyx] at hab
            by_cases hyz : y.toNat < z.toNat
            · rw [if_pos (by omega)]
            · rw [if_neg hyz] at hbc
              by_cases hzy : z.toNat < y.toNat
              · rw [if_pos hzy] at hbc
                exact absurd hbc (by simp)
              · rw [if_neg hzy] at hbc
                rw [if_neg (by omega), if_neg (by omega)]
                exact ih ys zs hab hbc

theorem charsLtb_total :
    ∀ a b : List Char, a ≠ b → charsLtb a b = false → charsLtb b a = true := by
  intro a
  induction a with
  | nil =>
    intro b hne hab
    cases b with
    | nil => exact absurd rfl hne
    | cons y ys => simp [charsLtb] at hab
  | cons x xs ih =>
    intro b hne hab
    cases b with
    | nil => simp [charsLtb]
    | cons y ys =>
      simp only [charsLtb] at hab ⊢
      by_cases hxy : x.toNat < y.toNat
      · rw [if_pos hxy] at hab
        exact absurd hab (by simp)
      · rw [if_neg hxy] at hab
        by_cases hyx : y.toNat < x.toNat
        · rw [if_pos hyx]
        · rw [if_neg hyx] at hab
          rw [if_neg (by omega), if_neg (by omega)]
          have hval : x.toNat = y.toNat := by omega
          have hchar : x = y := Char.ext (UInt32.ext (show x.val.toNat = y.val.toNat from hval))
          apply ih ys
          · intro hxys
            exact hne (by rw [hchar, hxys])
          · exact hab

theorem mem_btreeInsert_keys :
    ∀ (m : List (Url × LspScopeResolver)) (k : Url) (v : LspScopeResolver),
      ∀ x ∈ btreeInsert m k v, urlKey x.1 = urlKey k ∨ x ∈ m := by
  intro m k v
  induction m with
  | nil =>
    intro x hx
    simp only [btreeInsert, List.mem_singleton] at hx
    left
    rw [hx]
  | cons q rest ih =>
    intro x hx
    by_cases h1 : urlKey k = urlKey q.1
    · simp only [btreeInsert, if_pos h1] at hx
      rcases List.mem_cons.mp hx with hx | hx
      · left; rw [hx]
      · right; exact List.mem_cons_of_mem q hx
    · by_cases h2 : charsLtb (urlKey k) (urlKey q.1) = true
      · simp only [btreeInsert, if_neg h1, if_pos h2] at hx
        rcases List.mem_cons.mp hx with hx | hx
        · left; rw [hx]
        · right; exact hx
      · simp only [btreeInsert, if_neg h1, if_neg h2] at hx
        rcases List.mem_cons.mp hx with hx | hx
        · right; rw [hx]; exact List.mem_cons_self q rest
        · rcases ih x hx with hk | hm
          · left; exact hk
          · right; exact List.mem_cons_of_mem q hm

theorem pairwise_btreeInsert :
    ∀ (m : List (Url × LspScopeResolver)) (k : Url) (v : LspScopeResolver),
      m.Pairwise scopeKeyLt → (btreeInsert m k v).Pairwise scopeKeyLt := by
  intro m k v
  induction m with
  | nil =>
    intro _
    simp [btreeInsert]
  | cons q rest ih =>
    intro hp
    rw [List.pairwise_cons] at hp
    obtain ⟨hall, hrest⟩ := hp
    by_cases h1 : urlKey k = urlKey q.1
    · simp only [btreeInsert, if_pos h1]
      rw [List.pairwise_cons]
      refine ⟨?_, hrest⟩
      intro y hy
      show charsLtb (urlKey k) (urlKey y.1) = true
      rw [h1]
      exact hall y hy
    · by_cases h2 : charsLtb (urlKey k) (urlKey q.1) = true
      · simp only [btreeInsert, if_neg h1, if_pos h2]
        rw [List.pairwise_cons]
        constructor
        · intro y hy
          rcases List.mem_cons.mp hy with hy | hy
          · rw [hy]; exact h2
          · exact charsLtb_trans _ _ _ h2 (hall y hy)
        · rw [List.pairwise_cons]
          exact ⟨hall, hrest⟩
      · simp only [btreeInsert, if_neg h1, if_neg h2]
        rw [List.pairwise_cons]
        constructor
        · intro y hy
          rcases mem_btreeInsert_keys rest k v y hy with hk | hm
          · show charsLtb (urlKey q.1) (urlKey y.1) = true
            rw [hk]
            exact charsLtb_total (urlKey k) (urlKey q.1) h1
              (Bool.not_eq_true _ ▸ h2 : charsLtb (urlKey k) (urlKey q.1) = false)
          · exact hall y hm
        · exact ih hrest

theorem from_config_by_scope_sorted (scopes : List (Url × LspScopeResolver))
    (unscoped : LspScopeResolver) :
    ((LspResolver.from_config scopes unscoped).by_scope).Pairwise scopeKeyLt := by
  show (scopes.foldl (fun m p => btreeInsert m p.1 p.2) []).Pairwise scopeKeyLt
  have haux : ∀ (l : List (Url × LspScopeResolver)) (m : List (Url × LspScopeResolver)),
      m.Pairwise scopeKeyLt →
      (l.foldl (fun m p => btreeInsert m p.1 p.2) m).Pairwise scopeKeyLt := by
    intro l
    induction l with
    | nil => intro m hm; exact hm
    | cons q rest ih =>
      intro m hm
      exact ih _ (pairwise_btreeInsert m q.1 q.2 hm)
  exact haux scopes [] (by simp)

theorem filter_isSome_get (m : EntryMap) (u : Url)
    (hnd : (m.map Prod.fst).Nodup) :
    EntryMap.get (m.filter (fun p => p.2.isSome)) u =
      match m.get u with
      | some (some e) => some (some e)
      | _ => none := by
  induction m with
  | nil => rfl
  | cons q rest ih =>
    obtain ⟨qk, qv⟩ := q
    simp only [List.map_cons, List.nodup_cons] at hnd
    obtain ⟨hkn, hrest⟩ := hnd
    cases qv with
    | some e =>
      rw [List.filter_cons_of_pos (by simp)]
      by_cases hu : qk = u
      · simp [EntryMap.get, hu]
      · simp only [EntryMap.get, if_neg hu]
        exact ih hrest
    | none =>
      rw [List.filter_cons_of_neg (by simp)]
      by_cases hu : qk = u
      · have hnr : u ∉ rest.map Prod.fst := by rw [← hu]; exact hkn
        have h2 : EntryMap.get (rest.filter (fun p => p.2.isSome)) u = none := by
          apply EntryMap.get_eq_none_of_not_mem
          intro hmem
          apply hnr
          obtain ⟨p, hp, hp1⟩ := List.mem_map.mp hmem
          exact List.mem_map.mpr ⟨p, List.mem_of_mem_filter hp, hp1⟩
        rw [h2]
        simp [EntryMap.get, hu]
      · simp only [EntryMap.get, if_neg hu]
        exact ih hrest

theorem resolveLoopF_fuel_irrelevant (r : RedirectResolver) (s : Url) :
    ∀ f g current chain, chain.length ≤ 11 → 12 ≤ chain.length + f →
      12 ≤ chain.length + g →
      resolveLoopF f r s current chain = resolveLoopF g r s current chain := by
  intro f
  induction f with
  | zero =>
    intro g current chain h1 h2 _
    omega
  | succ f ih =>
    intro g current chain h1 h2 h3
    cases g with
    | zero => omega
    | succ g =>
      rw [resolveLoopF]
      conv_rhs => rw [resolveLoopF]
      cases hget : r.entries.get current with
      | some me =>
        cases me with
        | some entry => simp [hget]
        | none => simp [hget]
      | none =>
        cases hgh : r.get_headers current with
        | none => simp [hget, hgh]
        | some headers =>
          cases hloc : headersGet headers "location" with
          | none => simp [hget, hgh, hloc]
          | some loc =>
            by_cases hb : chain.length > 10
            · simp [hget, hgh, hloc, hb]
            · cases hri : r.resolve_import loc s with
              | none => simp [hget, hgh, hloc, if_neg hb, hri]
              | some target =>
                simp only [hget, hgh, hloc, if_neg hb, hri]
                apply ih
                · simp
                  omega
                · simp
                  omega
                · simp
                  omega

theorem lspScope_snapshot_eq (s : LspScopeResolver) : s.snapshot = s := rfl

theorem lspResolver_snapshot_eq (r : LspResolver) : r.snapshot = r := by
  have h : r.by_scope.map (fun p => (p.1, p.2.snapshot)) = r.by_scope := by
    rw [show (fun p : Url × LspScopeResolver => (p.1, p.2.snapshot)) = id from rfl,
      List.map_id]
  show LspResolver.mk r.unscoped.snapshot (r.by_scope.map (fun p => (p.1, p.2.snapshot))) = r
  rw [h]
  rfl

/-- C1, counterexample: the header provider below produces a redirect chain
of eleven hops (greater than ten) from `chainUrl 0`, yet
`RedirectResolver::resolve` succeeds with the terminal URL instead of
returning none: the source checks `chain.len() > 10` only after ten entries
have already been pushed, so an eleventh hop still succeeds. -/
theorem hop_bound_eleven_hops_resolves :
    walkIter elevenHopResolver (chainUrl 0) 11 (chainUrl 0) = some (chainUrl 11)
      ∧ elevenHopResolver.get_headers (chainUrl 11) = some []
      ∧ (elevenHopResolver.resolve (chainUrl 0)).1 = some (chainUrl 11) :=
  ⟨by decide, by decide, by decide⟩

/-- C1, amended: the hop bound is eleven, not ten. For every header provider
that produces a redirect chain of length greater than eleven hops (twelve
consecutive redirect steps) starting at an http(s) URL `u`, with a fresh
memoization table, `resolve u` returns none. -/
theorem resolve_hop_bound_amended (r : RedirectResolver) (u : Url)
    (hu : isHttpOrHttps u = true) (hE : r.entries = [])
    (h12 : walkIter r u 12 u ≠ none) :
    (r.resolve u).1 = none := by
  have hnu : ¬ (isHttpOrHttps u = false) := by simp [hu]
  have hl := resolveLoopF_hop_bound r u hE 13 u [] (by simp) (by simp) (by simpa using h12)
  simp only [RedirectResolver.resolve, if_neg hnu]
  exact hl

/-- Witness for the amended C1 at the concrete twelve-hop chain. -/
theorem resolve_hop_bound_amended_witness :
    (twelveHopResolver.resolve (chainUrl 0)).1 = none :=
  resolve_hop_bound_amended twelveHopResolver (chainUrl 0) (by decide) rfl (by decide)

/-- C8: cycle safety. For any header provider whose redirect graph contains
a cycle reachable from the http(s) URL `u` (the walk's successor sequence
from `u` repeats a URL), `resolve u` — a total function in this embedding,
so the walk terminates — returns none: the cyclic walk keeps extending the
chain until the hop bound fires. Stated for a fresh memoization table, as
for a resolver freshly constructed over the provider. -/
theorem resolve_cycle_returns_none (r : RedirectResolver) (u : Url)
    (hu : isHttpOrHttps u = true) (hE : r.entries = [])
    (hcyc : ∃ i j, i < j ∧ walkIter r u j u ≠ none
      ∧ walkIter r u i u = walkIter r u j u) :
    (r.resolve u).1 = none := by
  obtain ⟨i, j, hij, hd, he⟩ := hcyc
  have hall := cycle_walk_total r u u i j hij hd he
  have hnu : ¬ (isHttpOrHttps u = false) := by simp [hu]
  have hl := resolveLoopF_hop_bound r u hE 13 u [] (by simp) (by simp) (by simpa using hall 12)
  simp only [RedirectResolver.resolve, if_neg hnu]
  exact hl

/-- Witness for C8 at the concrete two-URL cycle. -/
theorem resolve_cycle_returns_none_witness :
    (cycResolver.resolve (hUrl "a")).1 = none :=
  resolve_cycle_returns_none cycResolver (hUrl "a") (by decide) rfl
    ⟨0, 2, by decide, by decide, by decide⟩

/-- C2, counterexample: resolving `hUrl "a"` over the two-URL cycle fails
(returns none), yet the failed walk leaves memoized redirect records (with
`destination := none`) for the visited URLs behind: the back-fill loop of
`resolve` runs even when the walk broke with none, so a subsequent lookup
does not find the table in its prior state (absence). -/
theorem failed_walk_memoizes_counterexample :
    cycResolver.entries.get (hUrl "a") = none
      ∧ (cycResolver.resolve (hUrl "a")).1 = none
      ∧ ((cycResolver.resolve (hUrl "a")).2).entries.get (hUrl "a")
          = some (some { headers := [("location", "b")], target := hUrl "b",
                         destination := none })
      ∧ ((cycResolver.resolve (hUrl "a")).2).entries.get (hUrl "b")
          = some (some { headers := [("location", "a")], target := hUrl "a",
                         destination := none }) :=
  ⟨rfl, by decide, by decide, by decide⟩

/-- C2, amended: when an http(s) walk fails (hop-bound overflow on a long
chain or cycle, a provider miss, or an unparseable location), every URL from
which the walk followed a redirect IS memoized, as a redirect record whose
`destination` is none; only the URL at which the walk failed is left
unprobed. -/
theorem failed_walk_memoizes_failure_entries (r : RedirectResolver) (u : Url)
    (hu : isHttpOrHttps u = true) (hfail : (r.resolve u).1 = none) :
    ∀ v ∈ (resolveLoopF 13 r u u []).2.1.map Prod.fst,
      ∃ e, ((r.resolve u).2).entries.get v = some (some e) ∧ e.destination = none := by
  intro v hv
  have hnu : ¬ (isHttpOrHttps u = false) := by simp [hu]
  have hdest : (resolveLoopF 13 r u u []).1 = none := by
    have h1 : (r.resolve u).1 = (resolveLoopF 13 r u u []).1 := by
      simp only [RedirectResolver.resolve, if_neg hnu]
    rw [← h1, hfail]
  have hr2 : ((r.resolve u).2).entries
      = backfill (resolveLoopF 13 r u u []).1 (resolveLoopF 13 r u u []).2.1
          (resolveLoopF 13 r u u []).2.2 := by
    simp only [RedirectResolver.resolve, if_neg hnu]
  rw [hr2, hdest]
  exact backfill_get_mem none _ _ v hv

/-- Witness for the amended C2: the one-hop walk into an unknown URL fails
and memoizes a failure record for the followed URL. -/
theorem failed_walk_memoizes_failure_entries_witness :
    ∃ e, ((partialResolver.resolve (hUrl "pa")).2).entries.get (hUrl "pa")
        = some (some e) ∧ e.destination = none :=
  failed_walk_memoizes_failure_entries partialResolver (hUrl "pa") (by decide) (by decide)
    (hUrl "pa") (by decide)

/-- C3, counterexample: take `s = liveResolver.snapshot`. Before any
mutation, `s.resolve_redirects` on the memoized-terminal URL returns it.
After `did_cache()` is called on the LIVE resolver (dropping the terminal
marker from the shared table), the SAME call on the snapshot `s` returns
none: the mutation of the live resolver is visible through the snapshot,
because `snapshot` clones the `Arc` of the redirect resolver rather than
the table. -/
theorem snapshot_sees_did_cache_counterexample :
    (LspResolver.resolve_redirects liveStore liveResolver.snapshot sharedTerminal none).1
        = some sharedTerminal
      ∧ (LspResolver.resolve_redirects (LspResolver.did_cache liveStore liveResolver)
          liveResolver.snapshot sharedTerminal none).1 = none :=
  ⟨by decide, by decide⟩

/-- C3, amended: a snapshot is NOT isolated from the redirect table: the
snapshot holds the same redirect-resolver handle as the live resolver
(`Arc::clone`), so its `resolve_redirects` always coincides with the live
resolver's against the current shared store — mutations of that shared
state (did_cache, memoizing walks) are visible through the snapshot. Only
the npm-family sub-resolvers are forked on snapshot (external to this
model). -/
theorem snapshot_shares_redirect_state (st : RedirectStore) (r : LspResolver)
    (u : Url) (fr : Option Url) :
    (r.snapshot).unscoped.redirect_resolver = r.unscoped.redirect_resolver
      ∧ LspResolver.resolve_redirects st r.snapshot u fr
          = LspResolver.resolve_redirects st r u fr := by
  constructor
  · rfl
  · rw [lspResolver_snapshot_eq]

/-- C4, counterexample: both configured scopes contain the referrer and the
scope inserted LAST is `scopeUrlA`, yet `get_scope_resolver` selects the
`scopeUrlB` scope — the one greatest in root-URL key order — because
`by_scope` is a BTreeMap ordered by root URL (insertion order cannot matter)
and `rfind` walks its values in key order. -/
theorem scope_router_key_order_counterexample :
    ((routerLastInsertedSmallKey.get_scope_resolver (some (hUrl "q"))).config_data.map
        (fun d => d.scope)) = some scopeUrlB
      ∧ scopeUrlB ≠ scopeUrlA :=
  ⟨by decide, by decide⟩

/-- C4, amended: `by_scope` is a key-ordered map, so `get_scope_resolver`
selects, among the scopes whose membership predicate contains the referrer,
the one whose root URL is GREATEST in key order (the last matching value of
the key-sorted map) — insertion order is immaterial; when none match, or no
referrer is given, it returns the unscoped default. -/
theorem get_scope_resolver_key_order (scopes : List (Url × LspScopeResolver))
    (unscoped : LspScopeResolver) (ref : Url) :
    ((LspResolver.from_config scopes unscoped).by_scope).Pairwise scopeKeyLt
      ∧ (LspResolver.from_config scopes unscoped).get_scope_resolver (some ref)
          = ((((LspResolver.from_config scopes unscoped).by_scope.map Prod.snd).filter
              (scopeMatches ref)).getLast?).getD unscoped
      ∧ (LspResolver.from_config scopes unscoped).get_scope_resolver none = unscoped := by
  refine ⟨from_config_by_scope_sorted scopes unscoped, ?_, rfl⟩
  show ((((LspResolver.from_config scopes unscoped).by_scope.map Prod.snd).reverse.find?
      (scopeMatches ref)).getD unscoped) = _
  rw [rfind_eq_getLast_filter]

/-- C5, counterexample: `did_cache` (`retain(|_, e| e.is_some())`) DROPS the
proven-terminal marker — a URL memoized as terminal is no longer memoized
afterwards — while it RETAINS the redirect records. The claim has the
polarity backwards: the `none` table values are the terminal markers, and
they are exactly what is dropped. -/
theorem did_cache_drops_terminal_counterexample :
    terminalEntryTable.entries.get (hUrl "term") = some none
      ∧ (terminalEntryTable.did_cache).entries.get (hUrl "term") = none
      ∧ (terminalEntryTable.did_cache).entries.get (hUrl "red")
          = some (some { headers := [], target := hUrl "term",
                         destination := some (hUrl "term") }) :=
  ⟨rfl, rfl, rfl⟩

/-- C5, amended: after `did_cache()` the table retains exactly the
known-redirecting records (`some` entries, including lockfile-seeded ones
and failure records) and drops every terminal marker, so terminal URLs are
re-probed via the header provider on the next query. Stated for tables with
duplicate-free keys, the invariant of every map built through `insert`. -/
theorem did_cache_retains_exactly_records (r : RedirectResolver) (u : Url)
    (hnd : (r.entries.map Prod.fst).Nodup) :
    (r.did_cache).entries.get u =
      match r.entries.get u with
      | some (some e) => some (some e)
      | _ => none :=
  filter_isSome_get r.entries u hnd

/-- Witness for the amended C5 at the concrete two-entry table. -/
theorem did_cache_retains_exactly_records_witness :
    (terminalEntryTable.did_cache).entries.get (hUrl "term")
      = match terminalEntryTable.entries.get (hUrl "term") with
        | some (some e) => some (some e)
        | _ => none :=
  did_cache_retains_exactly_records terminalEntryTable (hUrl "term") (by decide)

/-- C6, counterexample: with the lockfile `a → b, b → c`, the second entry
overwrites the terminal marker the first entry placed at `b` with a redirect
record, so `resolve a = some b` but `resolve b = some c`: resolve is not
idempotent on lockfile-seeded entries. -/
theorem resolve_idempotent_counterexample :
    (chainedLockfileResolver.resolve lockUrlA).1 = some lockUrlB
      ∧ (((chainedLockfileResolver.resolve lockUrlA).2).resolve lockUrlB).1 = some lockUrlC
      ∧ some lockUrlC ≠ some lockUrlB :=
  ⟨by decide, by decide, by decide⟩

/-- The single-entry seeded table satisfies the well-formedness invariant. -/
theorem singleLockfileResolver_inv : EntriesInv singleLockfileResolver.entries := by
  intro v e d hv hd
  have hE : singleLockfileResolver.entries
      = [(lockUrlB, none),
         (lockUrlA, some { headers := [], target := lockUrlB,
                           destination := some lockUrlB })] := rfl
  rw [hE] at hv
  by_cases h1 : lockUrlB = v
  · simp [EntryMap.get, h1] at hv
  · by_cases h2 : lockUrlA = v
    · have he : e = { headers := [], target := lockUrlB, destination := some lockUrlB } := by
        simp [EntryMap.get, h1, h2] at hv
        exact hv.symm
      right
      rw [he] at hd
      have hbd : lockUrlB = d := Option.some.inj hd
      rw [hE, ← hbd]
      simp [EntryMap.get]
    · simp [EntryMap.get, h1, h2] at hv

/-- Witness for the amended C6: with the single-entry lockfile `a → b` the
invariant holds, `resolve a` returns `b`, and resolving `b` in the resulting
state returns `b` with the state unchanged. -/
theorem resolve_idempotent_witness :
    ((singleLockfileResolver.resolve lockUrlA).2).resolve lockUrlB
      = (some lockUrlB, (singleLockfileResolver.resolve lockUrlA).2) :=
  resolve_idempotent singleLockfileResolver lockUrlA lockUrlB
    (singleLockfileResolver.resolve lockUrlA).2 singleLockfileResolver_inv rfl

/-- C7, counterexample: the lockfile contains the entry `b → c` (both URLs
parseable), so the claim demands `resolve b = some c`; but the later entry
`a → b` re-inserts `b` as a terminal marker, and the freshly constructed
resolver yields `resolve b = some b` instead. -/
theorem lockfile_seeding_counterexample :
    (overwrittenLockfileResolver.resolve lockUrlB).1 = some lockUrlB
      ∧ some lockUrlB ≠ some lockUrlC :=
  ⟨by decide, by decide⟩

/-- C7, amended: lockfile seeding as claimed holds for an entry `(s, t)`
parsing to http(s) `a → b` provided no LATER lockfile entry re-touches its
URLs (no later source parses to `a` or `b`, no later destination parses to
`a`): then `resolve a = some b` and `resolve b = some b` hold for EVERY
header provider — the provider is never consulted — and entries that fail
to parse are dropped without affecting construction. -/
theorem lockfile_seeding_amended (parse : String → Option Url)
    (cr : Url → Option Headers) (ri : String → Url → Option Url)
    (pre post : List (String × String)) (s t : String) (a b : Url)
    (hs : parse s = some a) (ht : parse t = some b)
    (hhttp : isHttpOrHttps a = true)
    (H1 : ∀ p ∈ post, parse p.1 ≠ some a) (H2 : ∀ p ∈ post, parse p.2 ≠ some a)
    (H3 : ∀ p ∈ post, parse p.1 ≠ some b) :
    ((RedirectResolver.new parse cr ri (some (pre ++ (s, t) :: post))).resolve a).1 = some b
      ∧ ((RedirectResolver.new parse cr ri (some (pre ++ (s, t) :: post))).resolve b).1 = some b
      ∧ (∀ q : String × String, ∀ es : EntryMap,
          parse q.1 = none ∨ parse q.2 = none → seedStep parse es q = es) := by
  have hfold : (RedirectResolver.new parse cr ri (some (pre ++ (s, t) :: post))).entries
      = post.foldl (seedStep parse)
          (seedStep parse (pre.foldl (seedStep parse) []) (s, t)) := by
    show (pre ++ (s, t) :: post).foldl (seedStep parse) [] = _
    rw [List.foldl_append]
    rfl
  have hmid : seedStep parse (pre.foldl (seedStep parse) []) (s, t)
      = ((pre.foldl (seedStep parse) []).insert a
          (some { headers := [], target := b, destination := some b })).insert b none := by
    simp only [seedStep, hs, ht]
  have hgetb : (RedirectResolver.new parse cr ri (some (pre ++ (s, t) :: post))).entries.get b
      = some none := by
    rw [hfold]
    apply seedFold_get_marker parse b post H3
    rw [hmid, EntryMap.get_insert_self]
  have hresb : ((RedirectResolver.new parse cr ri (some (pre ++ (s, t) :: post))).resolve b).1
      = some b := by
    rw [resolve_of_marker _ b hgetb]
  refine ⟨?_, hresb, ?_⟩
  · by_cases hab : a = b
    · rw [hab]
      exact hresb
    · have hgeta : (RedirectResolver.new parse cr ri
          (some (pre ++ (s, t) :: post))).entries.get a
          = some (some { headers := [], target := b, destination := some b }) := by
        rw [hfold, seedFold_get_preserved parse a post H1 H2, hmid]
        rw [EntryMap.get_insert_ne _ _ _ _ (fun hh => hab hh.symm),
          EntryMap.get_insert_self]
      have := resolve_of_record _ a _ hhttp hgeta
      rw [this]
  · intro q es hq
    rcases hq with hq | hq
    · simp [seedStep, hq]
    · cases hq1 : parse q.1 with
      | none => simp [seedStep, hq1]
      | some src => simp [seedStep, hq1, hq]

/-- Witness for the amended C7 at the single-entry lockfile `a → b`. -/
theorem lockfile_seeding_amended_witness :
    (singleLockfileResolver.resolve lockUrlA).1 = some lockUrlB
      ∧ (singleLockfileResolver.resolve lockUrlB).1 = some lockUrlB :=
  ⟨(lockfile_seeding_amended lockParse (fun _ => none) (fun _ _ => none) [] [] "A" "B"
      lockUrlA lockUrlB rfl rfl (by decide) (by simp) (by simp) (by simp)).1,
   (lockfile_seeding_amended lockParse (fun _ => none) (fun _ _ => none) [] [] "A" "B"
      lockUrlA lockUrlB rfl rfl (by decide) (by simp) (by simp) (by simp)).2.1⟩

/-- C9, counterexample: a parsed source is provided and the hint-based
classifier FAILS; the claim says any classifier failure yields false (ESM),
but `is_cjs` instead falls back to the maybe-cjs predicate, which answers
true here — so `is_cjs` returns true, not false. -/
theorem is_cjs_failure_fallback_counterexample :
    failingHintTracker.is_cjs trackedUrl tsMediaType (some { compute_is_script := true })
      = true := rfl

/-- C9, amended: the classification order is: explicit prior knowledge
first; else, given a parsed source, the hint-based classifier's successful
answer; with no parsed source, the maybe-cjs predicate (false when it
fails); and when the hint-based classification FAILS, is_cjs falls back to
the maybe-cjs predicate, returning false only when that also fails. -/
theorem is_cjs_decision_order (t : LspCjsTracker) (u : Url) (m : MediaType) :
    (∀ k ps, t.cjs_tracker.get_known_kind u m = some k → t.is_cjs u m ps = k.is_cjs)
      ∧ (∀ p b, t.cjs_tracker.get_known_kind u m = none →
          t.cjs_tracker.is_cjs_with_known_is_script u m p.compute_is_script = some b →
          t.is_cjs u m (some p) = b)
      ∧ (t.cjs_tracker.get_known_kind u m = none →
          t.is_cjs u m none = (t.cjs_tracker.is_maybe_cjs u m).getD false)
      ∧ (∀ p, t.cjs_tracker.get_known_kind u m = none →
          t.cjs_tracker.is_cjs_with_known_is_script u m p.compute_is_script = none →
          t.is_cjs u m (some p) = (t.cjs_tracker.is_maybe_cjs u m).getD false) := by
  refine ⟨?_, ?_, ?_, ?_⟩
  · intro k ps hk
    simp [LspCjsTracker.is_cjs, hk]
  · intro p b hk hb
    simp [LspCjsTracker.is_cjs, hk, hb]
  · intro hk
    simp [LspCjsTracker.is_cjs, hk]
  · intro p hk hb
    simp [LspCjsTracker.is_cjs, hk, hb]

/-- Witness for the amended C9: the failure-fallback clause evaluated at the
concrete tracker. -/
theorem is_cjs_decision_order_witness :
    failingHintTracker.is_cjs trackedUrl tsMediaType (some { compute_is_script := true })
      = (failingHintTracker.cjs_tracker.is_maybe_cjs trackedUrl tsMediaType).getD false :=
  (is_cjs_decision_order failingHintTracker trackedUrl tsMediaType).2.2.2
    { compute_is_script := true } rfl rfl

/-- C10: when the scope resolver selected for the query has no redirect
resolver configured (as in the default-constructed, pre-initialization
unscoped resolver), `resolve_redirects` returns the input specifier
unchanged (`some s`) and leaves the store untouched. -/
theorem resolve_redirects_without_resolver (st : RedirectStore) (r : LspResolver)
    (s : Url) (fr : Option Url)
    (h : (r.get_scope_resolver fr).redirect_resolver = none) :
    LspResolver.resolve_redirects st r s fr = (some s, st) := by
  simp only [LspResolver.resolve_redirects, h]

/-- Witness for C10 on the default-constructed resolver. -/
theorem resolve_redirects_without_resolver_witness :
    LspResolver.resolve_redirects { cells := [] } LspResolver.default (hUrl "w") none
      = (some (hUrl "w"), { cells := [] }) :=
  resolve_redirects_without_resolver { cells := [] } LspResolver.default (hUrl "w") none rfl
